import Mathlib

/-!
Verification development for the bounded-concurrency local job runner of
src/ic3_processing/cli/process_local.py (class JobLogBook together with its
helpers).  The Python class is embedded shallowly: the mutable object state
becomes the structure BookState, the OS facts the runner consults (which
paths are executable, which exit code a binary terminates with, which child
os.wait reports first) become explicit oracles, and the methods become pure
state-passing functions.  File handles are modelled by the pair of a fresh
numeric id and the target path they were opened on; process ids are
allocated sequentially by the model of subprocess.Popen.
-/

namespace ProcessLocal

/-- Model of the operating-system facts the runner consults: whether a path
is a regular executable file (the os.path.isfile and os.access X_OK test of
line 32 of process_local.py), and the exit code the binary at a path
terminates with when it is run. -/
structure OSModel where
  executable : String → Bool
  exitCode : String → Nat

/-- Raw 16-bit status word that os.wait reports for a child that terminated
normally with exit code exitCode job: POSIX places the exit code in the high
byte of the wait status, and os.wait hands that word back undecoded. -/
def waitStatus (os : OSModel) (job : String) : Nat :=
  256 * (os.exitCode job % 256)

/-- State of one JobLogBook object (lines 12-19).  logbook maps a pid to the
pair of the job path and the id of its log-file handle (the Popen object
itself carries no further information the runner reads back); openHandles
lists the currently open output handles with the target each was opened on;
nextPid and nextHandle model the allocation of fresh pids and handles. -/
structure BookState where
  log_dir : Option String
  n_jobs : Nat
  logbook : List (Nat × String × Nat)
  running_pid : List Nat
  n_finished : Nat
  log : List (String × String)
  bins : List String
  nextPid : Nat
  nextHandle : Nat
  openHandles : List (Nat × String)
deriving DecidableEq

/-- Python os.path.basename at character level: the part after the last
slash. -/
def basenameChars (l : List Char) : List Char :=
  (l.reverse.takeWhile (fun c => c ≠ '/')).reverse

/-- Python os.path.splitext root on one path component: drop the suffix that
starts at the last dot, unless every character before that dot is itself a
dot (a leading-dot name such as .cshrc keeps its whole name). -/
def splitextRootChars (l : List Char) : List Char :=
  match l.reverse.span (fun c => c ≠ '.') with
  | (_, []) => l
  | (_, _ :: restRev) =>
    if (restRev.reverse).any (fun c => c ≠ '.') then restRev.reverse else l

/-- Expression os.path.basename(os.path.splitext(job)[0]) of line 118;
splitext only ever splits inside the last path component, so taking the
basename first is equivalent. -/
def jobName (job : String) : String :=
  String.mk (splitextRootChars (basenameChars job.data))

/-- Target the per-job output handle is opened on (lines 119-123): the file
log_dir/job_name.log when a log directory is configured, os.devnull
otherwise.  os.path.join is modelled for a directory not ending in a
slash. -/
def logTarget (log_dir : Option String) (job : String) : String :=
  match log_dir with
  | some d => d ++ ("/") ++ jobName job ++ (".log")
  | none => ("/dev/null")

/-- JobLogBook.__start_subprocess__ (lines 117-132): open exactly one output
handle, launch the process (modelled by allocating the next pid), record the
triple in the logbook and append the pid to running_pid. -/
def startSubprocess (st : BookState) (job : String) : BookState :=
  { st with
    openHandles := st.openHandles ++ [(st.nextHandle, logTarget st.log_dir job)],
    logbook := st.logbook ++ [(st.nextPid, job, st.nextHandle)],
    running_pid := st.running_pid ++ [st.nextPid],
    nextPid := st.nextPid + 1,
    nextHandle := st.nextHandle + 1 }

/-- JobLogBook.__clear_job__ (lines 134-139): drop the pid from running_pid,
close the log handle only when a log directory is configured, and delete the
logbook entry (dictionary deletion removes the first and only entry with
this key). -/
def clearJob (st : BookState) (pid : Nat) : BookState :=
  let entry := (st.logbook.lookup pid).getD ((""), 0)
  { st with
    running_pid := st.running_pid.erase pid,
    openHandles :=
      if st.log_dir.isSome then st.openHandles.eraseP (fun x => x.1 == entry.2)
      else st.openHandles,
    logbook := st.logbook.eraseP (fun e => e.1 == pid) }

/-- Body of JobLogBook.__wait__ after os.wait returned the pair
(pid, status) (lines 54-60): append (job, status) to the execution log,
count the job as finished and clear it. -/
def reapOne (st : BookState) (pid : Nat) (status : Nat) : BookState :=
  let job := ((st.logbook.lookup pid).getD ((""), 0)).1
  clearJob
    { st with
      log := st.log ++ [(job, toString status)],
      n_finished := st.n_finished + 1 }
    pid

/-- Lines 50-53: try os.wait; on OSError call os.wait once more; an OSError
raised by the retry propagates to the caller.  The two attempt results are
explicit arguments. -/
def osWaitRetry (a1 a2 : Except Unit (Nat × Nat)) : Except Unit (Nat × Nat) :=
  match a1 with
  | Except.ok r => Except.ok r
  | Except.error _ => a2

/-- JobLogBook.__wait__ (lines 49-62) with the results of the two possible
os.wait attempts made explicit. -/
def waitStepE (a1 a2 : Except Unit (Nat × Nat)) (st : BookState) :
    Except Unit BookState :=
  match osWaitRetry a1 a2 with
  | Except.error e => Except.error e
  | Except.ok pr => Except.ok (reapOne st pr.1 pr.2)

/-- JobLogBook.__wait__ in an uninterrupted run: os.wait succeeds and
reports the termination of one running child.  Which child is reported is
chosen by the scheduler oracle pick, and its status word comes from the exit
code of its binary. -/
def waitStep (os : OSModel) (pick : List Nat → Nat) (st : BookState) :
    BookState × Nat :=
  let pid := pick st.running_pid
  let job := ((st.logbook.lookup pid).getD ((""), 0)).1
  (reapOne st pid (waitStatus os job), pid)

/-- Observable scheduling events of JobLogBook.process. -/
inductive Ev
  | dispatch (job : String)
  | skip (job : String)
  | reap (pid : Nat)
deriving DecidableEq

/-- Result of one process() call: ok is false when the call ended in an
uncaught exception, state is the object state at return or at the raise, and
trace lists the scheduling events, each paired with the size of running_pid
immediately after the event. -/
structure RunResult where
  ok : Bool
  state : BookState
  trace : List (Ev × Nat)
deriving DecidableEq

/-- For-loop of JobLogBook.process (lines 31-40).  i is the enumerate index.
The non-executable branch appends to the execution log and increments
n_finished before executing del self.__binaries[i]; that deletion raises
IndexError when i is out of range of the already-shrunk list, which the
model reports as ok = false with the state reached so far.  After either
branch the loop reaps one child whenever running_pid has reached n_jobs. -/
def dispatchLoop (os : OSModel) (pick : List Nat → Nat) :
    List String → Nat → BookState → RunResult
  | [], _, st => ⟨true, st, []⟩
  | job :: rest, i, st =>
    if os.executable job then
      let st1 := startSubprocess st job
      if st1.n_jobs ≤ st1.running_pid.length then
        let w := waitStep os pick st1
        let r := dispatchLoop os pick rest (i + 1) w.1
        ⟨r.ok, r.state,
          (Ev.dispatch job, st1.running_pid.length)
            :: (Ev.reap w.2, w.1.running_pid.length) :: r.trace⟩
      else
        let r := dispatchLoop os pick rest (i + 1) st1
        ⟨r.ok, r.state, (Ev.dispatch job, st1.running_pid.length) :: r.trace⟩
    else
      let stA := { st with
        n_finished := st.n_finished + 1,
        log := st.log ++ [(job, ("not_executable"))] }
      if i < stA.bins.length then
        let st1 := { stA with bins := stA.bins.eraseIdx i }
        if st1.n_jobs ≤ st1.running_pid.length then
          let w := waitStep os pick st1
          let r := dispatchLoop os pick rest (i + 1) w.1
          ⟨r.ok, r.state,
            (Ev.skip job, st1.running_pid.length)
              :: (Ev.reap w.2, w.1.running_pid.length) :: r.trace⟩
        else
          let r := dispatchLoop os pick rest (i + 1) st1
          ⟨r.ok, r.state, (Ev.skip job, st1.running_pid.length) :: r.trace⟩
      else
        ⟨false, stA, [(Ev.skip job, stA.running_pid.length)]⟩

/-- While-loop of lines 42-43: reap until running_pid is empty.  fuel bounds
the number of iterations; every use passes the running-set size at entry,
which is exactly the number of iterations the Python loop performs when the
scheduler oracle always reports a running child. -/
def drainLoop (os : OSModel) (pick : List Nat → Nat) :
    Nat → BookState → BookState × List (Ev × Nat)
  | 0, st => (st, [])
  | fuel + 1, st =>
    if st.running_pid.length = 0 then (st, [])
    else
      let w := waitStep os pick st
      let r := drainLoop os pick fuel w.1
      (r.1, (Ev.reap w.2, w.1.running_pid.length) :: r.2)

/-- State built by JobLogBook.__init__ (lines 12-19). -/
def initBook (n_jobs : Nat) (log_dir : Option String) : BookState :=
  { log_dir := log_dir, n_jobs := n_jobs, logbook := [], running_pid := [],
    n_finished := 0, log := [], bins := [], nextPid := 1, nextHandle := 0,
    openHandles := [] }

/-- JobLogBook.process (lines 21-47) on a fresh JobLogBook(n_jobs, log_dir):
self.__binaries becomes a copy of the argument, the dispatch loop runs, and
the drain loop follows when the dispatch loop did not raise.  Echo and
progress-bar output are ignored; the __store__ call of line 47 is modelled
separately by storeLines applied to the returned state. -/
def processRun (os : OSModel) (pick : List Nat → Nat) (n_jobs : Nat)
    (log_dir : Option String) (binaries : List String) : RunResult :=
  let st0 := { initBook n_jobs log_dir with bins := binaries }
  let r := dispatchLoop os pick binaries 0 st0
  if r.ok then
    let d := drainLoop os pick r.state.running_pid.length r.state
    ⟨true, d.1, r.trace ++ d.2⟩
  else r

/-- One line of resume.txt (format strings of lines 91 and 93); the trailing
newline is handled by the line-oriented file model. -/
def fmtLine (job outcome : String) : String := job ++ (";") ++ outcome

/-- Set difference set(self.__binaries).difference(finished_jobs) of lines
86-88.  Python set iteration order is unspecified; the model fixes the
order given by deduplicating the underlying list. -/
def unfinishedJobs (bins : List String) (finished : List String) : List String :=
  bins.dedup.filter (fun b => decide (¬ b ∈ finished))

/-- JobLogBook.__store__ (lines 84-93) viewed as the list of lines written
to log_dir/resume.txt: one line per execution-log entry, in log order, then
one line with empty outcome per unfinished binary. -/
def storeLines (log : List (String × String)) (bins : List String) :
    List String :=
  log.map (fun e => fmtLine e.1 e.2)
    ++ (unfinishedJobs bins (log.map Prod.fst)).map (fun job => fmtLine job (""))

/-- Character class removed by Python str.strip with no argument. -/
def isPySpace (c : Char) : Bool :=
  c = ' ' || c = '\t' || c = '\n' || c = '\r' || c = '\x0b' || c = '\x0c'

/-- Python str.strip() at character level. -/
def stripChars (l : List Char) : List Char :=
  ((l.dropWhile isPySpace).reverse.dropWhile isPySpace).reverse

/-- Python c.strip() of line 98. -/
def pyStrip (s : String) : String := String.mk (stripChars s.data)

/-- Python str.split on the single-character separator of line 103, at
character level: the result is never empty, adjacent separators yield empty
fields, and the empty input yields one empty field. -/
def splitOnSemiChars : List Char → List (List Char)
  | [] => [[]]
  | c :: rest =>
    if c = ';' then [] :: splitOnSemiChars rest
    else
      match splitOnSemiChars rest with
      | [] => [[c]]
      | f :: t => (c :: f) :: t

/-- Python expression of line 103 splitting one line on the separator. -/
def pySplitSemi (s : String) : List String :=
  (splitOnSemiChars s.data).map (fun l => String.mk l)

/-- JobLogBook.resume (lines 95-115) after readlines, as a function of the
stripped file lines: every line is split on the separator, a line without
exactly two fields raises ValueError, retry selects the jobs whose recorded
outcome differs from the clean-exit token, and no-retry selects the jobs
whose recorded outcome is empty.  The interactive confirm prompt of line 99
is the retry argument. -/
def resumeSelect (retry : Bool) : List String → Except String (List String)
  | [] => Except.ok []
  | c :: rest =>
    match pySplitSemi (pyStrip c) with
    | [job, exit_code] =>
      match resumeSelect retry rest with
      | Except.error e => Except.error e
      | Except.ok bs =>
        if retry then
          if exit_code ≠ ("0") then Except.ok (job :: bs) else Except.ok bs
        else
          if exit_code = ("") then Except.ok (job :: bs) else Except.ok bs
    | _ => Except.error ("ValueError")

/-- Parsing part of JobLogBook.resume (lines 101-105) with the retry
selection factored out: the (path, outcome) pairs the reader recovers from
the file lines. -/
def parsePairs : List String → Except String (List (String × String))
  | [] => Except.ok []
  | c :: rest =>
    match pySplitSemi (pyStrip c) with
    | [job, exit_code] =>
      match parsePairs rest with
      | Except.error e => Except.error e
      | Except.ok r => Except.ok ((job, exit_code) :: r)
    | _ => Except.error ("ValueError")

/-- Events that can occur while __wait_rest__ drains the pool: reap is one
completed __wait__ call (or, with no child left, the OSError that breaks the
loop), interrupt is a second SIGINT arriving during the drain. -/
inductive DrainStep
  | reap
  | interrupt
deriving DecidableEq

/-- Observable outcome of one __wait_rest__ call: the code passed to
sys.exit by the stricter interrupt handler (none when the drain completed
and __wait_rest__ returned), the pids the handler sent SIGINT to, and the
resume-file content written by __store__, when any was written. -/
structure DrainOutcome where
  exitCode : Option Nat
  killed : List Nat
  stored : Option (List String)
deriving DecidableEq

/-- JobLogBook.__wait_rest__ (lines 64-82) driven by an event list.  On an
interrupt event the handler exit_with_pid_term of lines 67-70 runs: it sends
SIGINT to every running pid and calls sys.exit(1), so nothing is stored.
On a reap event with no running child os.wait raises the OSError that
breaks the loop, after which __store__ runs exactly when save is set; with
running children one __wait__ completes.  An exhausted event list is read
as the loop break as well. -/
def waitRest (os : OSModel) (pick : List Nat → Nat) (save : Bool) :
    List DrainStep → BookState → DrainOutcome × BookState
  | DrainStep.interrupt :: _, st => (⟨some 1, st.running_pid, none⟩, st)
  | DrainStep.reap :: rest, st =>
    if st.running_pid.length = 0 then
      (⟨none, [], if save then some (storeLines st.log st.bins) else none⟩, st)
    else
      let w := waitStep os pick st
      waitRest os pick save rest w.1
  | [], st =>
    (⟨none, [], if save then some (storeLines st.log st.bins) else none⟩, st)

/-- Dispatch and skip events are the per-job work of the for-loop; reap
events free a slot. -/
def isDispatchOrSkip : Ev → Bool
  | Ev.dispatch _ => true
  | Ev.skip _ => true
  | Ev.reap _ => false

/-- Recogniser for reap events. -/
def isReap : Ev → Bool
  | Ev.reap _ => true
  | _ => false

/-- Recogniser for dispatch events. -/
def isDispatch : Ev → Bool
  | Ev.dispatch _ => true
  | _ => false

/-- Number of dispatch-or-skip events in a trace. -/
def countDS (tr : List (Ev × Nat)) : Nat :=
  (tr.filter (fun t => isDispatchOrSkip t.1)).length

/-- Number of reap events in a trace. -/
def countReap (tr : List (Ev × Nat)) : Nat :=
  (tr.filter (fun t => isReap t.1)).length

/-- Number of dispatch events in a trace. -/
def countDispatch (tr : List (Ev × Nat)) : Nat :=
  (tr.filter (fun t => isDispatch t.1)).length

/-- Concrete scheduler oracle: the oldest running child exits first. -/
def pickHead (l : List Nat) : Nat := l.headD 0

/-- Concrete scheduler oracle: the newest running child exits first. -/
def pickLast (l : List Nat) : Nat := l.getLastD 0

/-- Concrete OS: every path executable, every binary exits cleanly. -/
def osAllZero : OSModel := ⟨fun _ => true, fun _ => 0⟩

/-- Concrete OS: no path is executable. -/
def osNoneExec : OSModel := ⟨fun _ => false, fun _ => 0⟩

/-- Concrete OS for the five-job scenario: all paths executable, the third
job exits with code 1, the others with code 0. -/
def osScenario5 : OSModel :=
  ⟨fun _ => true, fun j => if j = ("j3") then 1 else 0⟩

/-- Concrete OS with exactly one non-executable path. -/
def osWitC2 : OSModel := ⟨fun s => !(s == ("b")), fun _ => 0⟩

/-- Tokens that survive str.strip unchanged and cannot collide with the
field separator: no separator character and no whitespace character.  Both
fields of a well-formed resume line satisfy this. -/
def cleanToken (s : String) : Prop :=
  ∀ c ∈ s.data, c ≠ ';' ∧ isPySpace c = false

instance : DecidablePred cleanToken := fun s =>
  inferInstanceAs (Decidable (∀ c ∈ s.data, c ≠ ';' ∧ isPySpace c = false))

/-- Multiset of job paths that are either already in the execution log or
still tracked by the logbook; the dispatch loop moves every binary into this
collection and the drain loop moves the logbook part into the log. -/
def logJobs (st : BookState) : List String :=
  st.log.map Prod.fst ++ st.logbook.map (fun e => e.2.1)

/-- Well-formedness invariant of a reachable BookState: running_pid lists
exactly the logbook keys, pids and handle ids are below their allocation
counters, keys and handle ids are distinct, with a log directory the open
handles are exactly the logbook handles, and without one every open handle
points at the null device. -/
structure Inv (st : BookState) : Prop where
  keys : st.running_pid = st.logbook.map (fun e => e.1)
  fresh : ∀ p ∈ st.running_pid, p < st.nextPid
  nd : st.running_pid.Nodup
  hFresh : ∀ e ∈ st.logbook, e.2.2 < st.nextHandle
  ohFresh : ∀ x ∈ st.openHandles, x.1 < st.nextHandle
  hands : st.log_dir.isSome = true →
    st.openHandles.map Prod.fst = st.logbook.map (fun e => e.2.2)
  handsNd : (st.logbook.map (fun e => e.2.2)).Nodup
  nullT : st.log_dir = none → ∀ x ∈ st.openHandles, x.2 = ("/dev/null")

/-- Facts the dispatch loop guarantees about its result, relative to the
state it started from.  The conditional facts hold when the loop ran to
completion without raising. -/
structure LoopFacts (stIn : BookState) (jobs : List String) (r : RunResult)
    (os : OSModel) : Prop where
  inv : Inv r.state
  njobs : r.state.n_jobs = stIn.n_jobs
  ldir : r.state.log_dir = stIn.log_dir
  binsSub : r.state.bins.Sublist stIn.bins
  nhandle : r.state.nextHandle = stIn.nextHandle + countDispatch r.trace
  sizes : ∀ t ∈ r.trace, t.2 ≤ stIn.n_jobs
  runlt : r.state.running_pid.length < stIn.n_jobs
  ohNone : stIn.log_dir = none →
    r.state.openHandles.length = stIn.openHandles.length + countDispatch r.trace
  okPerm : r.ok = true → (logJobs r.state).Perm (logJobs stIn ++ jobs)
  okDS : r.ok = true → countDS r.trace = jobs.length
  okReap : r.ok = true →
    r.state.running_pid.length + countReap r.trace =
      stIn.running_pid.length + (jobs.filter os.executable).length

/-- Facts the drain loop guarantees about its result: it reaps exactly the
running children, empties the running set, and performs no dispatches. -/
structure DrainFacts (stIn : BookState) (out : BookState × List (Ev × Nat)) :
    Prop where
  inv : Inv out.1
  run0 : out.1.running_pid = []
  njobs : out.1.n_jobs = stIn.n_jobs
  ldir : out.1.log_dir = stIn.log_dir
  bins : out.1.bins = stIn.bins
  nhandle : out.1.nextHandle = stIn.nextHandle
  perm : (logJobs out.1).Perm (logJobs stIn)
  countR : countReap out.2 = stIn.running_pid.length
  noDS : countDS out.2 = 0
  noDisp : countDispatch out.2 = 0
  sizes : ∀ t ∈ out.2, t.2 + 1 ≤ stIn.running_pid.length
  ohNone : stIn.log_dir = none → out.1.openHandles = stIn.openHandles

/-! Character-level lemmas about the strip and split primitives used by the
resume reader. -/

theorem dropWhile_isPySpace_eq_self {l : List Char}
    (h : ∀ c ∈ l, isPySpace c = false) : l.dropWhile isPySpace = l := by
  cases l with
  | nil => rfl
  | cons a t => simp [List.dropWhile_cons, h a (List.mem_cons_self a t)]

theorem stripChars_eq_self {l : List Char}
    (h : ∀ c ∈ l, isPySpace c = false) : stripChars l = l := by
  unfold stripChars
  rw [dropWhile_isPySpace_eq_self h, dropWhile_isPySpace_eq_self, List.reverse_reverse]
  intro c hc
  exact h c (List.mem_reverse.mp hc)

theorem splitOnSemiChars_no_semi {l : List Char} (h : ∀ c ∈ l, c ≠ ';') :
    splitOnSemiChars l = [l] := by
  induction l with
  | nil => rfl
  | cons a t ih =>
    have ha := h a (List.mem_cons_self a t)
    have ht : ∀ c ∈ t, c ≠ ';' := fun c hc => h c (List.mem_cons_of_mem a hc)
    simp [splitOnSemiChars, ha, ih ht]

theorem splitOnSemiChars_append {a b : List Char} (h : ∀ c ∈ a, c ≠ ';') :
    splitOnSemiChars (a ++ ';' :: b) = a :: splitOnSemiChars b := by
  induction a with
  | nil => simp [splitOnSemiChars]
  | cons x t ih =>
    have hx := h x (List.mem_cons_self x t)
    have ht : ∀ c ∈ t, c ≠ ';' := fun c hc => h c (List.mem_cons_of_mem x hc)
    simp [splitOnSemiChars, hx, ih ht]

theorem string_mk_data (s : String) : String.mk s.data = s := rfl

theorem string_data_append (a b : String) : (a ++ b).data = a.data ++ b.data := by
  cases a; cases b; rfl

theorem fmtLine_data (p o : String) :
    (fmtLine p o).data = p.data ++ ';' :: o.data := by
  have hsemi : ((";") : String).data = [';'] := rfl
  simp [fmtLine, string_data_append, hsemi]

theorem pyStrip_eq_self {s : String} (h : ∀ c ∈ s.data, isPySpace c = false) :
    pyStrip s = s := by
  unfold pyStrip
  rw [stripChars_eq_self h, string_mk_data]

theorem pyStrip_fmtLine {p o : String} (hp : cleanToken p) (ho : cleanToken o) :
    pyStrip (fmtLine p o) = fmtLine p o := by
  apply pyStrip_eq_self
  rw [fmtLine_data]
  intro c hc
  rcases List.mem_append.mp hc with h1 | h2
  · exact (hp c h1).2
  · rcases List.mem_cons.mp h2 with rfl | h3
    · rfl
    · exact (ho c h3).2

theorem pySplitSemi_fmtLine {p o : String} (hp : cleanToken p) (ho : cleanToken o) :
    pySplitSemi (fmtLine p o) = [p, o] := by
  unfold pySplitSemi
  rw [fmtLine_data, splitOnSemiChars_append (fun c hc => (hp c hc).1),
    splitOnSemiChars_no_semi (fun c hc => (ho c hc).1)]
  simp [string_mk_data]

theorem resumeSelect_cons_clean {retry : Bool} {p o : String}
    (hp : cleanToken p) (ho : cleanToken o) (rest : List String) :
    resumeSelect retry (fmtLine p o :: rest) =
      match resumeSelect retry rest with
      | Except.error e => Except.error e
      | Except.ok bs =>
        if retry then
          if o ≠ ("0") then Except.ok (p :: bs) else Except.ok bs
        else
          if o = ("") then Except.ok (p :: bs) else Except.ok bs := by
  simp [resumeSelect, pyStrip_fmtLine hp ho, pySplitSemi_fmtLine hp ho]

/-- Claim C1 (counterexample): for the resume file with lines A;0, B;1 and
C;, the retry selection of JobLogBook.resume is the two-element selection
[B, C], not the selection containing only B that the claim states.  The
empty recorded outcome of C also differs from the clean-exit token 0, so
line 107 selects C as well. -/
theorem claim_C1_counterexample :
    resumeSelect true [("A;0"), ("B;1"), ("C;")] = Except.ok [("B"), ("C")] ∧
      ([("B"), ("C")] : List String) ≠ [("B")] :=
  ⟨rfl, by decide⟩

/-- Claim C1 (amended): on a resume file whose lines are well-formed
path;outcome pairs built from separator-free, whitespace-free tokens,
resume with retry selects exactly the descriptors whose recorded outcome
differs from the clean-exit token 0 — including descriptors with an empty
outcome — and resume without retry selects exactly the descriptors whose
outcome is empty, in both cases in file order. -/
theorem claim_C1_amended (entries : List (String × String))
    (h : ∀ e ∈ entries, cleanToken e.1 ∧ cleanToken e.2) :
    resumeSelect true (entries.map (fun e => fmtLine e.1 e.2)) =
        Except.ok ((entries.filter (fun e => e.2 ≠ ("0"))).map Prod.fst) ∧
      resumeSelect false (entries.map (fun e => fmtLine e.1 e.2)) =
        Except.ok ((entries.filter (fun e => e.2 = (""))).map Prod.fst) := by
  induction entries with
  | nil => exact ⟨rfl, rfl⟩
  | cons e t ih =>
    obtain ⟨he1, he2⟩ := h e (List.mem_cons_self e t)
    have ht : ∀ x ∈ t, cleanToken x.1 ∧ cleanToken x.2 :=
      fun x hx => h x (List.mem_cons_of_mem e hx)
    obtain ⟨ih1, ih2⟩ := ih ht
    constructor
    · rw [List.map_cons, resumeSelect_cons_clean he1 he2, ih1]
      by_cases h0 : e.2 = ("0")
      · simp [List.filter_cons, h0]
      · simp [List.filter_cons, h0]
    · rw [List.map_cons, resumeSelect_cons_clean he1 he2, ih2]
      by_cases h0 : e.2 = ("")
      · simp [List.filter_cons, h0]
      · simp [List.filter_cons, h0]

/-- Claim C1 (witness): the amended selection evaluated on the file of the
claim, A;0, B;1 and C;. -/
theorem claim_C1_witness :
    resumeSelect true
        ([(("A"), ("0")), (("B"), ("1")), (("C"), (""))].map
          (fun e => fmtLine e.1 e.2)) =
      Except.ok [("B"), ("C")] ∧
    resumeSelect false
        ([(("A"), ("0")), (("B"), ("1")), (("C"), (""))].map
          (fun e => fmtLine e.1 e.2)) =
      Except.ok [("C")] :=
  claim_C1_amended [(("A"), ("0")), (("B"), ("1")), (("C"), (""))] (by decide)

theorem parsePairs_cons_clean {p o : String} (hp : cleanToken p)
    (ho : cleanToken o) (rest : List String) :
    parsePairs (fmtLine p o :: rest) =
      match parsePairs rest with
      | Except.error e => Except.error e
      | Except.ok r => Except.ok ((p, o) :: r) := by
  simp [parsePairs, pyStrip_fmtLine hp ho, pySplitSemi_fmtLine hp ho]

theorem parsePairs_map_fmtLine (entries : List (String × String))
    (h : ∀ e ∈ entries, cleanToken e.1 ∧ cleanToken e.2) :
    parsePairs (entries.map (fun e => fmtLine e.1 e.2)) = Except.ok entries := by
  induction entries with
  | nil => rfl
  | cons e t ih =>
    obtain ⟨he1, he2⟩ := h e (List.mem_cons_self e t)
    rw [List.map_cons, parsePairs_cons_clean he1 he2,
      ih (fun x hx => h x (List.mem_cons_of_mem e hx))]

theorem cleanToken_empty : cleanToken ("") := by
  intro c hc
  rw [show (("") : String).data = [] from rfl] at hc
  exact absurd hc (List.not_mem_nil c)

/-- Claim C6 (counterexample): an ExecutionLog whose single finished entry
has the path a;b round-trips to a ValueError instead of the original pair
set: __store__ writes the line a;b;0, and the reader of resume splits it
into three fields. -/
theorem claim_C6_counterexample :
    parsePairs (storeLines [((("a;b")), (("0")))] []) =
      Except.error ("ValueError") := rfl

/-- Claim C6 (amended): for an ExecutionLog whose paths and outcome tokens
are free of the separator character and of whitespace, writing it in the
resume format and parsing the file back succeeds and yields exactly the
same (path, outcome) set, with the empty outcome standing for every
unfinished descriptor. -/
theorem claim_C6_amended (log : List (String × String)) (bins : List String)
    (hlog : ∀ e ∈ log, cleanToken e.1 ∧ cleanToken e.2)
    (hbins : ∀ b ∈ bins, cleanToken b) :
    ∃ parsed,
      parsePairs (storeLines log bins) = Except.ok parsed ∧
        ∀ p o, ((p, o) ∈ parsed ↔
          ((p, o) ∈ log ∨
            (o = ("") ∧ p ∈ bins ∧ ¬ p ∈ log.map Prod.fst))) := by
  have hmemunf : ∀ p,
      (p ∈ unfinishedJobs bins (log.map Prod.fst) ↔
        (p ∈ bins ∧ ¬ p ∈ log.map Prod.fst)) := by
    intro p
    unfold unfinishedJobs
    simp [List.mem_filter, List.mem_dedup]
  have hsplitStore : storeLines log bins =
      ((log ++ (unfinishedJobs bins (log.map Prod.fst)).map
          (fun j => (j, ("")))).map (fun e => fmtLine e.1 e.2)) := by
    unfold storeLines
    rw [List.map_append, List.map_map]
    rfl
  have hclean : ∀ e ∈ log ++ (unfinishedJobs bins (log.map Prod.fst)).map
      (fun j => (j, (""))), cleanToken e.1 ∧ cleanToken e.2 := by
    intro e he
    rcases List.mem_append.mp he with h1 | h2
    · exact hlog e h1
    · obtain ⟨j, hj, rfl⟩ := List.mem_map.mp h2
      exact ⟨hbins j ((hmemunf j).mp hj).1, cleanToken_empty⟩
  refine ⟨log ++ (unfinishedJobs bins (log.map Prod.fst)).map
    (fun j => (j, (""))), ?_, ?_⟩
  · rw [hsplitStore]
    exact parsePairs_map_fmtLine _ hclean
  · intro p o
    constructor
    · intro hmem
      rcases List.mem_append.mp hmem with h1 | h2
      · exact Or.inl h1
      · obtain ⟨j, hj, hje⟩ := List.mem_map.mp h2
        have hj1 : j = p := congrArg Prod.fst hje
        have hj2 : (("") : String) = o := congrArg Prod.snd hje
        subst hj1
        obtain ⟨hb, hnl⟩ := (hmemunf j).mp hj
        exact Or.inr ⟨hj2.symm, hb, hnl⟩
    · rintro (h1 | ⟨rfl, hp, hnp⟩)
      · exact List.mem_append.mpr (Or.inl h1)
      · exact List.mem_append.mpr
          (Or.inr (List.mem_map.mpr ⟨p, (hmemunf p).mpr ⟨hp, hnp⟩, rfl⟩))

/-- Claim C6 (witness): the amended round-trip evaluated on a log with one
finished entry and one unfinished binary. -/
theorem claim_C6_witness :
    ∃ parsed,
      parsePairs (storeLines [((("A")), (("0")))] [("A"), ("C")]) =
          Except.ok parsed ∧
        ∀ p o, ((p, o) ∈ parsed ↔
          ((p, o) ∈ [((("A")), (("0")))] ∨
            (o = ("") ∧ p ∈ [("A"), ("C")] ∧
              ¬ p ∈ ([((("A")), (("0")))].map Prod.fst)))) :=
  claim_C6_amended [((("A")), (("0")))] [("A"), ("C")] (by decide) (by decide)

/-- Claim C4 (evaluation at the failing input): in the five-job scenario
with concurrency 2 where job j3 exits with code 1 and the others with code
0, the run completes and the persisted resume file has five lines, but the
line for j3 is j3;256 and no line ends in ;1: __wait__ stores the raw
16-bit status word returned by os.wait (the exit code shifted into the high
byte) instead of the decoded exit code, even though line 56 reports this
very value to the user as the exit code. -/
theorem claim_C4_bug :
    (processRun osScenario5 pickHead 2 (some ("logs"))
        [("j1"), ("j2"), ("j3"), ("j4"), ("j5")]).ok = true ∧
      storeLines
          (processRun osScenario5 pickHead 2 (some ("logs"))
            [("j1"), ("j2"), ("j3"), ("j4"), ("j5")]).state.log
          (processRun osScenario5 pickHead 2 (some ("logs"))
            [("j1"), ("j2"), ("j3"), ("j4"), ("j5")]).state.bins =
        [("j1;0"), ("j2;0"), ("j3;256"), ("j4;0"), ("j5;0")] ∧
      (∀ l ∈ [("j1;0"), ("j2;0"), ("j3;256"), ("j4;0"), ("j5;0")],
        ((";1") : String).data.isSuffixOf l.data = false) := by
  refine ⟨rfl, rfl, ?_⟩
  decide

/-- Claim C7 (evaluation at the failing input): with the two non-executable
descriptors n1 and n2, both jobs are recorded as not_executable as the claim
demands, but process() does not return normally: after n1 is removed from
self.__binaries, the deletion for n2 uses the stale enumerate index 1 on the
one-element remainder and raises IndexError, aborting the run. -/
theorem claim_C7_bug :
    (processRun osNoneExec pickHead 1 none [("n1"), ("n2")]).ok = false ∧
      (processRun osNoneExec pickHead 1 none [("n1"), ("n2")]).state.log =
        [((("n1")), (("not_executable"))), ((("n2")), (("not_executable")))] := by
  exact ⟨rfl, rfl⟩

/-- Claim C9 (counterexample): when the first os.wait call of __wait__ is
interrupted and the single retry of line 53 is interrupted as well, the
OSError of the retry propagates out of __wait__ — and process() installs no
handler for it — so a transient wait interruption can be surfaced to the
caller after all. -/
theorem claim_C9_counterexample :
    waitStepE (Except.error ()) (Except.error ())
        (startSubprocess (initBook 1 none) ("a")) =
      Except.error () := rfl

/-- Claim C9 (amended): the interrupted wait is retried exactly once.  A
single transient failure is absorbed — __wait__ then behaves exactly as if
the first os.wait call had succeeded — but when the retry fails as well,
the error propagates to the caller instead of being retried again. -/
theorem claim_C9_amended :
    (∀ (pr : Nat × Nat) (a2 : Except Unit (Nat × Nat)) (st : BookState),
        waitStepE (Except.error ()) (Except.ok pr) st =
          waitStepE (Except.ok pr) a2 st) ∧
      (∀ st : BookState,
        waitStepE (Except.error ()) (Except.error ()) st = Except.error ()) :=
  ⟨fun _ _ _ => rfl, fun _ => rfl⟩

/-- Claim C8 (counterexample): a second interrupt arriving while
__wait_rest__ drains a two-job pool does terminate every still-running
child and exit with failure status 1, but nothing is flushed: the handler
exit_with_pid_term of lines 67-70 calls sys.exit(1) without ever reaching
the __store__ call of line 82, so the stored resume content is absent,
contradicting the claimed best-effort flush. -/
theorem claim_C8_counterexample :
    (waitRest osAllZero pickHead true [DrainStep.reap, DrainStep.interrupt]
        (startSubprocess (startSubprocess (initBook 2 (some ("L"))) ("a"))
          ("b"))).1 =
      ⟨some 1, [2], none⟩ := rfl

/-- Claim C8 (amended): a second interrupt during draining sends the
terminate signal to every running child and exits the program with failure
status 1, but without any flush of the execution log: whenever the drain
ends through the stricter interrupt handler, no resume content is written
(the flush of line 82 happens only when draining completes without a second
interrupt). -/
theorem claim_C8_amended (os : OSModel) (pick : List Nat → Nat) (save : Bool) :
    (∀ (rest : List DrainStep) (st : BookState),
        (waitRest os pick save (DrainStep.interrupt :: rest) st).1 =
          ⟨some 1, st.running_pid, none⟩) ∧
      (∀ (evs : List DrainStep) (st : BookState),
        (waitRest os pick save evs st).1.exitCode = some 1 →
          (waitRest os pick save evs st).1.stored = none) := by
  constructor
  · intro rest st
    rfl
  · intro evs
    induction evs with
    | nil =>
      intro st h
      simp [waitRest] at h
    | cons e t ih =>
      cases e with
      | interrupt => intro st h; rfl
      | reap =>
        intro st h
        by_cases hr : st.running_pid.length = 0
        · simp [waitRest, hr] at h
        · simp only [waitRest, hr, if_false, if_neg hr] at h ⊢
          exact ih _ h

/-- Claim C8 (witness): the amended no-flush property evaluated at a
concrete interrupted drain. -/
theorem claim_C8_witness :
    (waitRest osAllZero pickHead true [DrainStep.interrupt]
        (initBook 1 none)).1.stored = none :=
  (claim_C8_amended osAllZero pickHead true).2 [DrainStep.interrupt]
    (initBook 1 none) rfl

/-! Counting lemmas for event traces. -/

theorem countDS_cons (t : Ev × Nat) (tr : List (Ev × Nat)) :
    countDS (t :: tr) = countDS tr + (if isDispatchOrSkip t.1 then 1 else 0) := by
  by_cases h : isDispatchOrSkip t.1 <;> simp [countDS, List.filter_cons, h]

theorem countReap_cons (t : Ev × Nat) (tr : List (Ev × Nat)) :
    countReap (t :: tr) = countReap tr + (if isReap t.1 then 1 else 0) := by
  by_cases h : isReap t.1 <;> simp [countReap, List.filter_cons, h]

theorem countDispatch_cons (t : Ev × Nat) (tr : List (Ev × Nat)) :
    countDispatch (t :: tr) =
      countDispatch tr + (if isDispatch t.1 then 1 else 0) := by
  by_cases h : isDispatch t.1 <;> simp [countDispatch, List.filter_cons, h]

theorem countDS_append (a b : List (Ev × Nat)) :
    countDS (a ++ b) = countDS a + countDS b := by
  simp [countDS, List.filter_append]

theorem countReap_append (a b : List (Ev × Nat)) :
    countReap (a ++ b) = countReap a + countReap b := by
  simp [countReap, List.filter_append]

theorem countDispatch_append (a b : List (Ev × Nat)) :
    countDispatch (a ++ b) = countDispatch a + countDispatch b := by
  simp [countDispatch, List.filter_append]

/-! Association-list facts about the logbook. -/

theorem map_fst_eraseP {β : Type} (l : List (Nat × β)) (a : Nat) :
    (l.eraseP (fun e => e.1 == a)).map Prod.fst = (l.map Prod.fst).erase a := by
  induction l with
  | nil => rfl
  | cons x t ih =>
    by_cases hx : x.1 = a
    · simp [List.eraseP_cons, List.erase_cons, hx]
    · simp [List.eraseP_cons, List.erase_cons, hx, ih]

theorem logbook_extract {lb : List (Nat × String × Nat)} {pid : Nat}
    (h : pid ∈ lb.map (fun e => e.1)) :
    ∃ jb hd l1 l2,
      lb = l1 ++ (pid, jb, hd) :: l2 ∧
        (∀ e ∈ l1, e.1 ≠ pid) ∧
        lb.lookup pid = some (jb, hd) ∧
        lb.eraseP (fun e => e.1 == pid) = l1 ++ l2 := by
  induction lb with
  | nil => simp at h
  | cons x t ih =>
    obtain ⟨k, jb0, hd0⟩ := x
    by_cases hk : k = pid
    · subst hk
      refine ⟨jb0, hd0, [], t, rfl, by simp, ?_, ?_⟩
      · simp [List.lookup]
      · simp [List.eraseP_cons]
    · have ht : pid ∈ t.map (fun e => e.1) := by
        simp only [List.map_cons, List.mem_cons] at h
        rcases h with h1 | h2
        · exact absurd h1.symm hk
        · exact h2
      obtain ⟨jb, hd, l1, l2, he, hl1, hlk, her⟩ := ih ht
      refine ⟨jb, hd, (k, jb0, hd0) :: l1, l2, by rw [he]; rfl, ?_, ?_, ?_⟩
      · intro e hee
        rcases List.mem_cons.mp hee with rfl | h3
        · exact hk
        · exact hl1 e h3
      · have hke : (pid == k) = false := by
          simp [Ne.symm hk]
        simp [List.lookup, hke, hlk]
      · simp [List.eraseP_cons, hk, her]

/-! Invariant preservation. -/

theorem inv_initBook (n_jobs : Nat) (log_dir : Option String)
    (binaries : List String) :
    Inv { initBook n_jobs log_dir with bins := binaries } := by
  constructor <;> simp [initBook]

theorem startSubprocess_running (st : BookState) (job : String) :
    (startSubprocess st job).running_pid = st.running_pid ++ [st.nextPid] := rfl

theorem startSubprocess_length (st : BookState) (job : String) :
    (startSubprocess st job).running_pid.length = st.running_pid.length + 1 := by
  rw [startSubprocess_running]
  simp

theorem logJobs_startSubprocess (st : BookState) (job : String) :
    logJobs (startSubprocess st job) = logJobs st ++ [job] := by
  unfold logJobs startSubprocess
  simp

theorem inv_startSubprocess {st : BookState} (h : Inv st) (job : String) :
    Inv (startSubprocess st job) := by
  obtain ⟨hk, hf, hnd, hhf, hohf, hh, hhn, hnt⟩ := h
  constructor
  · show st.running_pid ++ [st.nextPid] =
      (st.logbook ++ [(st.nextPid, job, st.nextHandle)]).map (fun e => e.1)
    rw [List.map_append, hk]
    rfl
  · intro p hp
    rw [startSubprocess_running] at hp
    show p < st.nextPid + 1
    rcases List.mem_append.mp hp with h1 | h2
    · exact Nat.lt_succ_of_lt (hf p h1)
    · rw [List.mem_singleton.mp h2]
      exact Nat.lt_succ_self _
  · rw [startSubprocess_running]
    refine List.Nodup.append hnd (List.nodup_singleton _) ?_
    intro a ha hb
    rw [List.mem_singleton.mp hb] at ha
    exact absurd (hf _ ha) (Nat.lt_irrefl _)
  · intro e he
    show e.2.2 < st.nextHandle + 1
    rcases List.mem_append.mp he with h1 | h2
    · exact Nat.lt_succ_of_lt (hhf e h1)
    · rw [List.mem_singleton.mp h2]
      exact Nat.lt_succ_self _
  · intro x hx
    show x.1 < st.nextHandle + 1
    rcases List.mem_append.mp hx with h1 | h2
    · exact Nat.lt_succ_of_lt (hohf x h1)
    · rw [List.mem_singleton.mp h2]
      exact Nat.lt_succ_self _
  · intro hs
    show (st.openHandles ++ [(st.nextHandle, logTarget st.log_dir job)]).map Prod.fst =
      (st.logbook ++ [(st.nextPid, job, st.nextHandle)]).map (fun e => e.2.2)
    rw [List.map_append, List.map_append, hh hs]
    rfl
  · show ((st.logbook ++ [(st.nextPid, job, st.nextHandle)]).map
      (fun e => e.2.2)).Nodup
    rw [List.map_append]
    refine List.Nodup.append hhn (List.nodup_singleton _) ?_
    intro a ha hb
    have : a = st.nextHandle := by
      simpa using List.mem_singleton.mp hb
    rw [this] at ha
    obtain ⟨e, hel, hee⟩ := List.mem_map.mp ha
    exact absurd (hee ▸ hhf e hel) (Nat.lt_irrefl _)
  · intro hnone x hx
    have hnone' : st.log_dir = none := hnone
    rcases List.mem_append.mp hx with h1 | h2
    · exact hnt hnone' x h1
    · rw [List.mem_singleton.mp h2]
      show logTarget st.log_dir job = ("/dev/null")
      rw [hnone']
      rfl

theorem reapOne_eq {st : BookState} {pid hd : Nat} {jb : String}
    (hlk : st.logbook.lookup pid = some (jb, hd)) (status : Nat) :
    reapOne st pid status =
      { st with
        log := st.log ++ [(jb, toString status)],
        n_finished := st.n_finished + 1,
        running_pid := st.running_pid.erase pid,
        openHandles :=
          if st.log_dir.isSome then
            st.openHandles.eraseP (fun x => x.1 == hd)
          else st.openHandles,
        logbook := st.logbook.eraseP (fun e => e.1 == pid) } := by
  simp [reapOne, clearJob, hlk]

theorem reapOne_spec {st : BookState} (hInv : Inv st) {pid : Nat}
    (hpid : pid ∈ st.running_pid) (status : Nat) :
    Inv (reapOne st pid status) ∧
      (reapOne st pid status).running_pid.length + 1 = st.running_pid.length ∧
      (reapOne st pid status).n_jobs = st.n_jobs ∧
      (reapOne st pid status).log_dir = st.log_dir ∧
      (reapOne st pid status).bins = st.bins ∧
      (reapOne st pid status).nextPid = st.nextPid ∧
      (reapOne st pid status).nextHandle = st.nextHandle ∧
      (logJobs (reapOne st pid status)).Perm (logJobs st) ∧
      (st.log_dir = none →
        (reapOne st pid status).openHandles = st.openHandles) := by
  obtain ⟨hk, hf, hnd, hhf, hohf, hh, hhn, hnt⟩ := hInv
  have hpid' : pid ∈ st.logbook.map (fun e => e.1) := hk ▸ hpid
  obtain ⟨jb, hd, l1, l2, he, hl1, hlk, her⟩ := logbook_extract hpid'
  rw [reapOne_eq hlk status]
  have hpnotin : ¬ pid ∈ l1.map (fun e => e.1) := by
    intro hc
    obtain ⟨e, hel, hee⟩ := List.mem_map.mp hc
    exact hl1 e hel hee
  have hrun : st.running_pid =
      l1.map (fun e => e.1) ++ pid :: l2.map (fun e => e.1) := by
    rw [hk, he]
    simp
  have herase : st.running_pid.erase pid =
      l1.map (fun e => e.1) ++ l2.map (fun e => e.1) := by
    rw [hrun, List.erase_append_right _ hpnotin, List.erase_cons_head]
  have hhand : st.logbook.map (fun e => e.2.2) =
      l1.map (fun e => e.2.2) ++ hd :: l2.map (fun e => e.2.2) := by
    rw [he]
    simp
  refine ⟨?_, ?_, rfl, rfl, rfl, rfl, rfl, ?_, ?_⟩
  · constructor
    · show st.running_pid.erase pid =
        (st.logbook.eraseP (fun e => e.1 == pid)).map (fun e => e.1)
      have : (st.logbook.eraseP (fun e => e.1 == pid)).map Prod.fst =
          (st.logbook.map Prod.fst).erase pid := map_fst_eraseP _ _
      rw [this, hk]
    · intro p hp
      exact hf p (List.erase_subset _ _ hp)
    · exact hnd.erase pid
    · intro e hee
      refine hhf e ?_
      exact (List.eraseP_sublist _).subset hee
    · intro x hx
      by_cases hc : st.log_dir.isSome
      · rw [if_pos hc] at hx
        exact hohf x ((List.eraseP_sublist _).subset hx)
      · rw [if_neg hc] at hx
        exact hohf x hx
    · intro hs
      show (if st.log_dir.isSome then
          st.openHandles.eraseP (fun x => x.1 == hd)
        else st.openHandles).map Prod.fst =
        (st.logbook.eraseP (fun e => e.1 == pid)).map (fun e => e.2.2)
      rw [if_pos hs, map_fst_eraseP, hh hs, her, hhand]
      have hnda : (l1.map (fun e => e.2.2) ++ hd :: l2.map (fun e => e.2.2)).Nodup := by
        rw [← hhand]
        exact hhn
      have hhdnotin : ¬ hd ∈ l1.map (fun e => e.2.2) := by
        intro hc
        obtain ⟨_, _, hdisj⟩ := List.nodup_append.mp hnda
        exact hdisj hc (List.mem_cons_self _ _)
      rw [List.erase_append_right _ hhdnotin, List.erase_cons_head]
      simp
    · show ((st.logbook.eraseP (fun e => e.1 == pid)).map (fun e => e.2.2)).Nodup
      rw [her]
      refine List.Nodup.sublist ?_ (hhand ▸ hhn)
      simp only [List.map_append, List.map_cons]
      exact List.Sublist.append_left (List.sublist_cons_self _ _) _
    · intro hnone x hx
      have : st.log_dir.isSome = false := by rw [hnone]; rfl
      rw [if_neg (by simp [this])] at hx
      exact hnt hnone x hx
  · show (st.running_pid.erase pid).length + 1 = st.running_pid.length
    rw [herase, hrun]
    simp
    omega
  · show ((st.log ++ [(jb, toString status)]).map Prod.fst ++
      (st.logbook.eraseP (fun e => e.1 == pid)).map (fun e => e.2.1)).Perm
      (logJobs st)
    rw [her, logJobs, he]
    simp only [List.map_append, List.map_cons, List.map_nil]
    have hstep : (st.log.map Prod.fst ++ [jb]) ++
        (l1.map (fun e => e.2.1) ++ l2.map (fun e => e.2.1)) =
        st.log.map Prod.fst ++
          (jb :: (l1.map (fun e => e.2.1) ++ l2.map (fun e => e.2.1))) := by
      simp
    rw [hstep]
    exact List.Perm.append_left _ List.perm_middle.symm
  · intro hnone
    have : st.log_dir.isSome = false := by rw [hnone]; rfl
    show (if st.log_dir.isSome then
        st.openHandles.eraseP (fun x => x.1 == hd)
      else st.openHandles) = st.openHandles
    rw [if_neg (by simp [this])]

theorem startSubprocess_oh_length (st : BookState) (job : String) :
    (startSubprocess st job).openHandles.length = st.openHandles.length + 1 := by
  show (st.openHandles ++ [(st.nextHandle, logTarget st.log_dir job)]).length = _
  simp

theorem waitStep_spec {st : BookState} (hInv : Inv st) (os : OSModel)
    {pick : List Nat → Nat} (hpick : ∀ l : List Nat, l ≠ [] → pick l ∈ l)
    (hne : st.running_pid ≠ []) :
    Inv (waitStep os pick st).1 ∧
      (waitStep os pick st).1.running_pid.length + 1 = st.running_pid.length ∧
      (waitStep os pick st).1.n_jobs = st.n_jobs ∧
      (waitStep os pick st).1.log_dir = st.log_dir ∧
      (waitStep os pick st).1.bins = st.bins ∧
      (waitStep os pick st).1.nextPid = st.nextPid ∧
      (waitStep os pick st).1.nextHandle = st.nextHandle ∧
      (logJobs (waitStep os pick st).1).Perm (logJobs st) ∧
      (st.log_dir = none →
        (waitStep os pick st).1.openHandles = st.openHandles) :=
  reapOne_spec hInv (hpick _ hne) _

theorem perm_append_swap_mid (L B : List String) (j : String) :
    ((L ++ [j]) ++ B).Perm ((L ++ B) ++ [j]) := by
  rw [List.append_assoc, List.append_assoc]
  refine List.Perm.append_left L ?_
  have h2 : (B ++ [j]).Perm (j :: B) := List.perm_append_singleton j B
  exact (List.Perm.refl (j :: B)).trans h2.symm

theorem logJobs_skip (st : BookState) (job outcome : String) :
    logJobs { st with n_finished := st.n_finished + 1,
                      log := st.log ++ [(job, outcome)] } =
      (st.log.map Prod.fst ++ [job]) ++ st.logbook.map (fun e => e.2.1) := by
  unfold logJobs
  simp

theorem dispatchLoop_spec (os : OSModel) {pick : List Nat → Nat}
    (hpick : ∀ l : List Nat, l ≠ [] → pick l ∈ l) (jobs : List String) :
    ∀ (i : Nat) (st : BookState), Inv st → 1 ≤ st.n_jobs →
      st.running_pid.length < st.n_jobs →
      LoopFacts st jobs (dispatchLoop os pick jobs i st) os := by
  induction jobs with
  | nil =>
    intro i st hInv hC hlen
    simp only [dispatchLoop]
    refine ⟨hInv, rfl, rfl, List.Sublist.refl _, by simp [countDispatch], ?_,
      hlen, by simp [countDispatch], ?_, by simp [countDS], ?_⟩
    · intro t ht
      exact absurd ht (List.not_mem_nil t)
    · intro _
      simp
    · intro _
      simp [countReap]
  | cons job rest ih =>
    intro i st hInv hC hlen
    by_cases hexec : os.executable job = true
    · have hInv1 : Inv (startSubprocess st job) := inv_startSubprocess hInv job
      have hlen1 : (startSubprocess st job).running_pid.length =
          st.running_pid.length + 1 := startSubprocess_length st job
      by_cases hsat : st.n_jobs ≤ st.running_pid.length + 1
      · -- the dispatch fills the last slot: one child is reaped immediately
        have hsat1 : (startSubprocess st job).n_jobs ≤
            (startSubprocess st job).running_pid.length := by
          show st.n_jobs ≤ (startSubprocess st job).running_pid.length
          rw [hlen1]
          exact hsat
        have hne1 : (startSubprocess st job).running_pid ≠ [] := by
          rw [startSubprocess_running]
          simp
        obtain ⟨hInv2, hlen2, hnj2, hld2, hbins2, hnp2, hnh2, hperm2, hoh2⟩ :=
          waitStep_spec hInv1 os hpick hne1
        rw [hlen1] at hlen2
        have hnj2' : (waitStep os pick (startSubprocess st job)).1.n_jobs =
            st.n_jobs := hnj2
        have hld2' : (waitStep os pick (startSubprocess st job)).1.log_dir =
            st.log_dir := hld2
        have hbins2' : (waitStep os pick (startSubprocess st job)).1.bins =
            st.bins := hbins2
        have hnh2' : (waitStep os pick (startSubprocess st job)).1.nextHandle =
            st.nextHandle + 1 := hnh2
        have hperm2' :
            (logJobs (waitStep os pick (startSubprocess st job)).1).Perm
              (logJobs st ++ [job]) := by
          rw [← logJobs_startSubprocess st job]
          exact hperm2
        have hlen2' : (waitStep os pick (startSubprocess st job)).1.running_pid.length =
            st.running_pid.length := by omega
        have F := ih (i + 1) (waitStep os pick (startSubprocess st job)).1 hInv2
          (by rw [hnj2']; exact hC) (by rw [hnj2', hlen2']; exact hlen)
        simp only [dispatchLoop]
        rw [if_pos hexec, if_pos hsat1]
        refine ⟨F.inv, ?_, ?_, ?_, ?_, ?_, ?_, ?_, ?_, ?_, ?_⟩
        · show (dispatchLoop os pick rest (i + 1)
            (waitStep os pick (startSubprocess st job)).1).state.n_jobs = st.n_jobs
          rw [F.njobs, hnj2']
        · show (dispatchLoop os pick rest (i + 1)
            (waitStep os pick (startSubprocess st job)).1).state.log_dir = st.log_dir
          rw [F.ldir, hld2']
        · show List.Sublist (dispatchLoop os pick rest (i + 1)
            (waitStep os pick (startSubprocess st job)).1).state.bins st.bins
          have := F.binsSub
          rw [hbins2'] at this
          exact this
        · show (dispatchLoop os pick rest (i + 1)
              (waitStep os pick (startSubprocess st job)).1).state.nextHandle =
            st.nextHandle + countDispatch
              ((Ev.dispatch job, (startSubprocess st job).running_pid.length)
                :: (Ev.reap (waitStep os pick (startSubprocess st job)).2,
                    (waitStep os pick (startSubprocess st job)).1.running_pid.length)
                :: (dispatchLoop os pick rest (i + 1)
                    (waitStep os pick (startSubprocess st job)).1).trace)
          rw [countDispatch_cons, countDispatch_cons, F.nhandle, hnh2']
          simp [isDispatch]
          omega
        · intro t ht
          rcases List.mem_cons.mp ht with rfl | ht2
          · show (startSubprocess st job).running_pid.length ≤ st.n_jobs
            rw [hlen1]
            omega
          rcases List.mem_cons.mp ht2 with rfl | ht3
          · show (waitStep os pick (startSubprocess st job)).1.running_pid.length ≤
              st.n_jobs
            omega
          · have := F.sizes t ht3
            rw [hnj2'] at this
            exact this
        · have := F.runlt
          rw [hnj2'] at this
          exact this
        · intro hnone
          have hnone1 : (startSubprocess st job).log_dir = none := hnone
          have hoh1 : (startSubprocess st job).openHandles.length =
              st.openHandles.length + 1 := startSubprocess_oh_length st job
          have hoh2' := hoh2 hnone1
          have hnone2 : (waitStep os pick (startSubprocess st job)).1.log_dir =
              none := by rw [hld2']; exact hnone
          have := F.ohNone hnone2
          rw [hoh2', hoh1] at this
          rw [countDispatch_cons, countDispatch_cons, this]
          simp [isDispatch]
          omega
        · intro hok
          have hP := F.okPerm hok
          refine hP.trans ?_
          refine (hperm2'.append_right rest).trans ?_
          rw [List.append_assoc]
          exact List.Perm.refl _
        · intro hok
          rw [countDS_cons, countDS_cons, F.okDS hok]
          simp [isDispatchOrSkip]
        · intro hok
          have hR := F.okReap hok
          rw [hlen2'] at hR
          have hfc : ((job :: rest).filter os.executable).length =
              (rest.filter os.executable).length + 1 := by
            simp [List.filter_cons, hexec]
          rw [countReap_cons, countReap_cons]
          simp [isReap]
          omega
      · -- a slot stays free: dispatch and continue
        have hsat1 : ¬ (startSubprocess st job).n_jobs ≤
            (startSubprocess st job).running_pid.length := by
          show ¬ st.n_jobs ≤ (startSubprocess st job).running_pid.length
          rw [hlen1]
          exact hsat
        have F := ih (i + 1) (startSubprocess st job) hInv1 hC
          (by rw [hlen1]; omega)
        simp only [dispatchLoop]
        rw [if_pos hexec, if_neg hsat1]
        refine ⟨F.inv, F.njobs, F.ldir, F.binsSub, ?_, ?_, F.runlt, ?_, ?_, ?_, ?_⟩
        · show (dispatchLoop os pick rest (i + 1)
              (startSubprocess st job)).state.nextHandle =
            st.nextHandle + countDispatch
              ((Ev.dispatch job, (startSubprocess st job).running_pid.length)
                :: (dispatchLoop os pick rest (i + 1)
                    (startSubprocess st job)).trace)
          have hnh1 : (startSubprocess st job).nextHandle = st.nextHandle + 1 := rfl
          rw [countDispatch_cons, F.nhandle, hnh1]
          simp [isDispatch]
          omega
        · intro t ht
          rcases List.mem_cons.mp ht with rfl | ht2
          · show (startSubprocess st job).running_pid.length ≤ st.n_jobs
            rw [hlen1]
            omega
          · exact F.sizes t ht2
        · intro hnone
          have hnone1 : (startSubprocess st job).log_dir = none := hnone
          have := F.ohNone hnone1
          rw [startSubprocess_oh_length] at this
          rw [countDispatch_cons, this]
          simp [isDispatch]
          omega
        · intro hok
          have hP := F.okPerm hok
          rw [logJobs_startSubprocess] at hP
          refine hP.trans ?_
          rw [List.append_assoc]
          exact List.Perm.refl _
        · intro hok
          rw [countDS_cons, F.okDS hok]
          simp [isDispatchOrSkip]
        · intro hok
          have hR := F.okReap hok
          rw [startSubprocess_length] at hR
          have hfc : ((job :: rest).filter os.executable).length =
              (rest.filter os.executable).length + 1 := by
            simp [List.filter_cons, hexec]
          rw [countReap_cons]
          simp [isReap]
          omega
    · -- non-executable branch
      have hexf : os.executable job = false := by
        simpa using hexec
      by_cases hidx : i < st.bins.length
      · have hInvA : Inv { st with
            n_finished := st.n_finished + 1,
            log := st.log ++ [(job, ("not_executable"))],
            bins := st.bins.eraseIdx i } :=
          ⟨hInv.keys, hInv.fresh, hInv.nd, hInv.hFresh, hInv.ohFresh,
            hInv.hands, hInv.handsNd, hInv.nullT⟩
        have hnsat : ¬ ({ st with
            n_finished := st.n_finished + 1,
            log := st.log ++ [(job, ("not_executable"))],
            bins := st.bins.eraseIdx i } : BookState).n_jobs ≤
            ({ st with
              n_finished := st.n_finished + 1,
              log := st.log ++ [(job, ("not_executable"))],
              bins := st.bins.eraseIdx i } : BookState).running_pid.length := by
          show ¬ st.n_jobs ≤ st.running_pid.length
          omega
        have F := ih (i + 1) { st with
            n_finished := st.n_finished + 1,
            log := st.log ++ [(job, ("not_executable"))],
            bins := st.bins.eraseIdx i } hInvA hC hlen
        simp only [dispatchLoop]
        rw [if_neg (by simp [hexf]), if_pos hidx, if_neg hnsat]
        refine ⟨F.inv, F.njobs, F.ldir, ?_, ?_, ?_, F.runlt, ?_, ?_, ?_, ?_⟩
        · exact F.binsSub.trans (List.eraseIdx_sublist st.bins i)
        · rw [countDispatch_cons, F.nhandle]
          simp [isDispatch]
        · intro t ht
          rcases List.mem_cons.mp ht with rfl | ht2
          · show st.running_pid.length ≤ st.n_jobs
            omega
          · exact F.sizes t ht2
        · intro hnone
          have := F.ohNone hnone
          rw [countDispatch_cons, this]
          simp [isDispatch]
        · intro hok
          have hP := F.okPerm hok
          have hA : logJobs { st with
              n_finished := st.n_finished + 1,
              log := st.log ++ [(job, ("not_executable"))],
              bins := st.bins.eraseIdx i } =
              (st.log.map Prod.fst ++ [job]) ++
                st.logbook.map (fun e => e.2.1) := by
            unfold logJobs
            simp
          rw [hA] at hP
          refine hP.trans ?_
          refine ((perm_append_swap_mid (st.log.map Prod.fst)
            (st.logbook.map (fun e => e.2.1)) job).append_right rest).trans ?_
          rw [List.append_assoc]
          exact List.Perm.refl _
        · intro hok
          rw [countDS_cons, F.okDS hok]
          simp [isDispatchOrSkip]
        · intro hok
          have hR := F.okReap hok
          have hRfix : ({ st with
              n_finished := st.n_finished + 1,
              log := st.log ++ [(job, ("not_executable"))],
              bins := st.bins.eraseIdx i } : BookState).running_pid.length =
              st.running_pid.length := rfl
          rw [hRfix] at hR
          have hfc : ((job :: rest).filter os.executable).length =
              (rest.filter os.executable).length := by
            simp [List.filter_cons, hexf]
          rw [countReap_cons]
          simp [isReap]
          omega
      · -- stale index: del raises IndexError
        have hInvA : Inv { st with
            n_finished := st.n_finished + 1,
            log := st.log ++ [(job, ("not_executable"))] } :=
          ⟨hInv.keys, hInv.fresh, hInv.nd, hInv.hFresh, hInv.ohFresh,
            hInv.hands, hInv.handsNd, hInv.nullT⟩
        simp only [dispatchLoop]
        rw [if_neg (by simp [hexf]), if_neg hidx]
        refine ⟨hInvA, rfl, rfl, List.Sublist.refl _, ?_, ?_, hlen, ?_, ?_, ?_, ?_⟩
        · rw [countDispatch_cons]
          simp [countDispatch, isDispatch]
        · intro t ht
          rcases List.mem_cons.mp ht with rfl | ht2
          · show st.running_pid.length ≤ st.n_jobs
            omega
          · exact absurd ht2 (List.not_mem_nil t)
        · intro _
          rw [countDispatch_cons]
          simp [countDispatch, isDispatch]
        · intro hok
          exact Bool.noConfusion hok
        · intro hok
          exact Bool.noConfusion hok
        · intro hok
          exact Bool.noConfusion hok

theorem drainLoop_spec (os : OSModel) {pick : List Nat → Nat}
    (hpick : ∀ l : List Nat, l ≠ [] → pick l ∈ l) :
    ∀ (fuel : Nat) (st : BookState), Inv st → st.running_pid.length ≤ fuel →
      DrainFacts st (drainLoop os pick fuel st) := by
  intro fuel
  induction fuel with
  | zero =>
    intro st hInv hfuel
    have h0 : st.running_pid = [] :=
      List.length_eq_zero.mp (Nat.le_zero.mp hfuel)
    simp only [drainLoop]
    refine ⟨hInv, h0, rfl, rfl, rfl, rfl, List.Perm.refl _, ?_,
      by simp [countDS], by simp [countDispatch], ?_, fun _ => rfl⟩
    · rw [h0]
      simp [countReap]
    · intro t ht
      exact absurd ht (List.not_mem_nil t)
  | succ n ihn =>
    intro st hInv hfuel
    by_cases h0 : st.running_pid.length = 0
    · have h0' : st.running_pid = [] := List.length_eq_zero.mp h0
      simp only [drainLoop]
      rw [if_pos h0]
      refine ⟨hInv, h0', rfl, rfl, rfl, rfl, List.Perm.refl _, ?_,
        by simp [countDS], by simp [countDispatch], ?_, fun _ => rfl⟩
      · rw [h0']
        simp [countReap]
      · intro t ht
        exact absurd ht (List.not_mem_nil t)
    · have hne : st.running_pid ≠ [] := by
        intro hc
        exact h0 (by rw [hc]; rfl)
      obtain ⟨hInv1, hlen1, hnj1, hld1, hbins1, hnp1, hnh1, hperm1, hoh1⟩ :=
        waitStep_spec hInv os hpick hne
      have F := ihn (waitStep os pick st).1 hInv1 (by omega)
      simp only [drainLoop]
      rw [if_neg h0]
      refine ⟨F.inv, F.run0, F.njobs.trans hnj1, F.ldir.trans hld1,
        F.bins.trans hbins1, F.nhandle.trans hnh1, F.perm.trans hperm1,
        ?_, ?_, ?_, ?_, ?_⟩
      · rw [countReap_cons]
        have := F.countR
        simp [isReap]
        omega
      · rw [countDS_cons]
        have := F.noDS
        simp [isDispatchOrSkip]
        omega
      · rw [countDispatch_cons]
        have := F.noDisp
        simp [isDispatch]
        omega
      · intro t ht
        rcases List.mem_cons.mp ht with rfl | ht2
        · show (waitStep os pick st).1.running_pid.length + 1 ≤
            st.running_pid.length
          omega
        · have := F.sizes t ht2
          omega
      · intro hnone
        have hnone1 : (waitStep os pick st).1.log_dir = none :=
          hld1.trans hnone
        exact (F.ohNone hnone1).trans (hoh1 hnone)

theorem processRun_spec (os : OSModel) {pick : List Nat → Nat}
    (hpick : ∀ l : List Nat, l ≠ [] → pick l ∈ l) (C : Nat)
    (ld : Option String) (binaries : List String) (hC : 1 ≤ C) :
    (∀ t ∈ (processRun os pick C ld binaries).trace, t.2 ≤ C) ∧
      ((processRun os pick C ld binaries).ok = true →
        countDS (processRun os pick C ld binaries).trace = binaries.length ∧
          countReap (processRun os pick C ld binaries).trace =
            (binaries.filter os.executable).length ∧
          ((processRun os pick C ld binaries).state.log.map Prod.fst).Perm
            binaries ∧
          (processRun os pick C ld binaries).state.logbook = [] ∧
          (processRun os pick C ld binaries).state.bins.Sublist binaries) ∧
      (processRun os pick C ld binaries).state.nextHandle =
        countDispatch (processRun os pick C ld binaries).trace ∧
      (ld = none →
        (processRun os pick C ld binaries).state.openHandles.length =
            countDispatch (processRun os pick C ld binaries).trace ∧
          ∀ x ∈ (processRun os pick C ld binaries).state.openHandles,
            x.2 = ("/dev/null")) ∧
      ((processRun os pick C ld binaries).ok = true → ld.isSome = true →
        (processRun os pick C ld binaries).state.openHandles = []) := by
  have hInv0 : Inv { initBook C ld with bins := binaries } :=
    inv_initBook C ld binaries
  have hC0 : 1 ≤ ({ initBook C ld with bins := binaries } : BookState).n_jobs :=
    hC
  have hlen0 : ({ initBook C ld with bins := binaries } :
      BookState).running_pid.length <
      ({ initBook C ld with bins := binaries } : BookState).n_jobs := hC
  have FD := dispatchLoop_spec os hpick binaries 0
    { initBook C ld with bins := binaries } hInv0 hC0 hlen0
  have hrunlt : (dispatchLoop os pick binaries 0
      { initBook C ld with bins := binaries }).state.running_pid.length < C :=
    FD.runlt
  have hnhD : (dispatchLoop os pick binaries 0
      { initBook C ld with bins := binaries }).state.nextHandle =
      countDispatch (dispatchLoop os pick binaries 0
        { initBook C ld with bins := binaries }).trace := by
    have := FD.nhandle
    simpa [initBook] using this
  have hsizesD : ∀ t ∈ (dispatchLoop os pick binaries 0
      { initBook C ld with bins := binaries }).trace, t.2 ≤ C :=
    fun t ht => FD.sizes t ht
  by_cases hok : (dispatchLoop os pick binaries 0
      { initBook C ld with bins := binaries }).ok = true
  · have hSt : (processRun os pick C ld binaries).state =
        (drainLoop os pick
          (dispatchLoop os pick binaries 0
            { initBook C ld with bins := binaries }).state.running_pid.length
          (dispatchLoop os pick binaries 0
            { initBook C ld with bins := binaries }).state).1 := by
      simp only [processRun]
      rw [if_pos hok]
    have hTr : (processRun os pick C ld binaries).trace =
        (dispatchLoop os pick binaries 0
            { initBook C ld with bins := binaries }).trace ++
          (drainLoop os pick
            (dispatchLoop os pick binaries 0
              { initBook C ld with bins := binaries }).state.running_pid.length
            (dispatchLoop os pick binaries 0
              { initBook C ld with bins := binaries }).state).2 := by
      simp only [processRun]
      rw [if_pos hok]
    have FDr := drainLoop_spec os hpick
      (dispatchLoop os pick binaries 0
        { initBook C ld with bins := binaries }).state.running_pid.length
      (dispatchLoop os pick binaries 0
        { initBook C ld with bins := binaries }).state FD.inv (Nat.le_refl _)
    have hnj' : (dispatchLoop os pick binaries 0
        { initBook C ld with bins := binaries }).state.n_jobs = C := FD.njobs
    have hld' : (dispatchLoop os pick binaries 0
        { initBook C ld with bins := binaries }).state.log_dir = ld := FD.ldir
    have hlb0 : (drainLoop os pick
        (dispatchLoop os pick binaries 0
          { initBook C ld with bins := binaries }).state.running_pid.length
        (dispatchLoop os pick binaries 0
          { initBook C ld with bins := binaries }).state).1.logbook = [] := by
      have hkeys := FDr.inv.keys
      rw [FDr.run0] at hkeys
      exact (List.map_eq_nil.mp hkeys.symm)
    refine ⟨?_, ?_, ?_, ?_, ?_⟩
    · intro t ht
      rw [hTr] at ht
      rcases List.mem_append.mp ht with h1 | h2
      · exact hsizesD t h1
      · have h3 := FDr.sizes t h2
        omega
    · intro _
      have hDS := FD.okDS hok
      have hReap := FD.okReap hok
      have hPerm := FD.okPerm hok
      refine ⟨?_, ?_, ?_, ?_, ?_⟩
      · rw [hTr, countDS_append, hDS, FDr.noDS]
        omega
      · rw [hTr, countReap_append, FDr.countR]
        have hrun0 : ({ initBook C ld with bins := binaries } :
            BookState).running_pid.length = 0 := rfl
        rw [hrun0] at hReap
        omega
      · rw [hSt]
        have hbig := FDr.perm.trans hPerm
        have hinit : logJobs ({ initBook C ld with bins := binaries } :
            BookState) = [] := rfl
        rw [hinit] at hbig
        have hjl : logJobs (drainLoop os pick
            (dispatchLoop os pick binaries 0
              { initBook C ld with bins := binaries }).state.running_pid.length
            (dispatchLoop os pick binaries 0
              { initBook C ld with bins := binaries }).state).1 =
            (drainLoop os pick
              (dispatchLoop os pick binaries 0
                { initBook C ld with bins := binaries }).state.running_pid.length
              (dispatchLoop os pick binaries 0
                { initBook C ld with bins := binaries }).state).1.log.map
              Prod.fst := by
          unfold logJobs
          rw [hlb0]
          simp
        rw [hjl] at hbig
        simpa using hbig
      · rw [hSt]
        exact hlb0
      · rw [hSt, FDr.bins]
        exact FD.binsSub
    · rw [hSt, hTr, countDispatch_append, FDr.nhandle, FDr.noDisp, hnhD]
      omega
    · intro hnone
      have hnone0 : ({ initBook C ld with bins := binaries } :
          BookState).log_dir = none := hnone
      have hnoneD : (dispatchLoop os pick binaries 0
          { initBook C ld with bins := binaries }).state.log_dir = none := by
        rw [hld']
        exact hnone
      constructor
      · have hohD : (dispatchLoop os pick binaries 0
            { initBook C ld with bins := binaries }).state.openHandles.length =
            countDispatch (dispatchLoop os pick binaries 0
              { initBook C ld with bins := binaries }).trace := by
          have := FD.ohNone hnone0
          simpa [initBook] using this
        rw [hSt, hTr, countDispatch_append, FDr.noDisp, FDr.ohNone hnoneD, hohD]
        omega
      · intro x hx
        rw [hSt] at hx
        have hnoneDr : (drainLoop os pick
            (dispatchLoop os pick binaries 0
              { initBook C ld with bins := binaries }).state.running_pid.length
            (dispatchLoop os pick binaries 0
              { initBook C ld with bins := binaries }).state).1.log_dir =
            none := by
          rw [FDr.ldir]
          exact hnoneD
        exact FDr.inv.nullT hnoneDr x hx
    · intro _ hsome
      have hsomeDr : (drainLoop os pick
          (dispatchLoop os pick binaries 0
            { initBook C ld with bins := binaries }).state.running_pid.length
          (dispatchLoop os pick binaries 0
            { initBook C ld with bins := binaries }).state).1.log_dir.isSome =
          true := by
        rw [FDr.ldir, hld']
        exact hsome
      have hhands := FDr.inv.hands hsomeDr
      rw [hlb0] at hhands
      simp only [List.map_nil] at hhands
      rw [hSt]
      exact List.map_eq_nil.mp hhands
  · have hokF : (processRun os pick C ld binaries).ok = false := by
      simp only [processRun]
      rw [if_neg hok]
      simpa using hok
    have hSt : (processRun os pick C ld binaries).state =
        (dispatchLoop os pick binaries 0
          { initBook C ld with bins := binaries }).state := by
      simp only [processRun]
      rw [if_neg hok]
    have hTr : (processRun os pick C ld binaries).trace =
        (dispatchLoop os pick binaries 0
          { initBook C ld with bins := binaries }).trace := by
      simp only [processRun]
      rw [if_neg hok]
    refine ⟨?_, ?_, ?_, ?_, ?_⟩
    · intro t ht
      rw [hTr] at ht
      exact FD.sizes t ht
    · intro h
      rw [hokF] at h
      exact Bool.noConfusion h
    · rw [hSt, hTr, hnhD]
    · intro hnone
      have hnone0 : ({ initBook C ld with bins := binaries } :
          BookState).log_dir = none := hnone
      constructor
      · have hohD : (dispatchLoop os pick binaries 0
            { initBook C ld with bins := binaries }).state.openHandles.length =
            countDispatch (dispatchLoop os pick binaries 0
              { initBook C ld with bins := binaries }).trace := by
          have := FD.ohNone hnone0
          simpa [initBook] using this
        rw [hSt, hTr, hohD]
      · intro x hx
        rw [hSt] at hx
        have hnoneD : (dispatchLoop os pick binaries 0
            { initBook C ld with bins := binaries }).state.log_dir = none := by
          rw [FD.ldir]
          exact hnone
        exact FD.inv.nullT hnoneD x hx
    · intro h _
      rw [hokF] at h
      exact Bool.noConfusion h

theorem pickHead_mem : ∀ l : List Nat, l ≠ [] → pickHead l ∈ l := by
  intro l h
  cases l with
  | nil => exact absurd rfl h
  | cons a t => exact List.mem_cons_self a t

theorem getLastD_mem_cons : ∀ (l : List Nat) (a : Nat), l.getLastD a ∈ a :: l := by
  intro l
  induction l with
  | nil => intro a; simp [List.getLastD]
  | cons b t ih =>
    intro a
    rw [List.getLastD_cons]
    exact List.mem_cons_of_mem a (ih b)

theorem pickLast_mem : ∀ l : List Nat, l ≠ [] → pickLast l ∈ l := by
  intro l h
  cases l with
  | nil => exact absurd rfl h
  | cons a t =>
    show (a :: t).getLastD 0 ∈ a :: t
    rw [List.getLastD_cons]
    exact getLastD_mem_cons t a

theorem length_filter_not {α : Type} (l : List α) (p : α → Bool) :
    (l.filter p).length + (l.filter (fun a => !(p a))).length = l.length := by
  induction l with
  | nil => rfl
  | cons a t ih => by_cases h : p a <;> simp [List.filter_cons, h] <;> omega

theorem storeLines_of_complete {log : List (String × String)}
    {bins binaries : List String}
    (hperm : (log.map Prod.fst).Perm binaries) (hbins : bins.Sublist binaries) :
    storeLines log bins = log.map (fun e => fmtLine e.1 e.2) := by
  unfold storeLines
  have hunf : unfinishedJobs bins (log.map Prod.fst) = [] := by
    unfold unfinishedJobs
    apply List.filter_eq_nil_iff.mpr
    intro b hbmem
    have hb1 : b ∈ bins := List.mem_dedup.mp hbmem
    have hb2 : b ∈ binaries := hbins.subset hb1
    have hb3 : b ∈ log.map Prod.fst := hperm.mem_iff.mpr hb2
    simp [hb3]
  rw [hunf]
  simp

/-- Claim C2: for every job sequence of length N and concurrency limit
C at least 1, at no point during process() does the running set exceed C
entries — every running-set size recorded in the event trace, including the
moment right after a dispatch, is at most C — and a run that returns
normally performs exactly N dispatch-or-skip events and exactly
N minus the number of non-executable descriptors reap events. -/
theorem claim_C2 (os : OSModel) (pick : List Nat → Nat) (C : Nat)
    (ld : Option String) (binaries : List String)
    (hpick : ∀ l : List Nat, l ≠ [] → pick l ∈ l) (hC : 1 ≤ C) :
    (∀ t ∈ (processRun os pick C ld binaries).trace, t.2 ≤ C) ∧
      ((processRun os pick C ld binaries).ok = true →
        countDS (processRun os pick C ld binaries).trace = binaries.length ∧
          countReap (processRun os pick C ld binaries).trace =
            binaries.length -
              (binaries.filter (fun b => !(os.executable b))).length) := by
  obtain ⟨h1, h2, _, _, _⟩ := processRun_spec os hpick C ld binaries hC
  refine ⟨h1, fun hok => ?_⟩
  obtain ⟨hds, hreap, _, _, _⟩ := h2 hok
  refine ⟨hds, ?_⟩
  rw [hreap]
  have := length_filter_not binaries os.executable
  omega

/-- Claim C2 (witness): three jobs, one of them non-executable, with
concurrency limit 2. -/
theorem claim_C2_witness :
    (∀ t ∈ (processRun osWitC2 pickHead 2 none
        [("a"), ("b"), ("c")]).trace, t.2 ≤ 2) ∧
      ((processRun osWitC2 pickHead 2 none [("a"), ("b"), ("c")]).ok = true →
        countDS (processRun osWitC2 pickHead 2 none
            [("a"), ("b"), ("c")]).trace = ([("a"), ("b"), ("c")] :
              List String).length ∧
          countReap (processRun osWitC2 pickHead 2 none
              [("a"), ("b"), ("c")]).trace =
            ([("a"), ("b"), ("c")] : List String).length -
              (([("a"), ("b"), ("c")] : List String).filter
                (fun b => !(osWitC2.executable b))).length) :=
  claim_C2 osWitC2 pickHead 2 none [("a"), ("b"), ("c")] pickHead_mem
    (by decide)

/-- Claim C3: for pairwise-distinct descriptors, after process() returns
normally the execution log holds exactly one entry per input descriptor —
its paths are a permutation of the input, without duplicates, each counted
once — and the persisted resume file consists of exactly these entries, one
line per descriptor, with no unfinished section. -/
theorem claim_C3 (os : OSModel) (pick : List Nat → Nat) (C : Nat)
    (ld : Option String) (binaries : List String)
    (hpick : ∀ l : List Nat, l ≠ [] → pick l ∈ l) (hC : 1 ≤ C)
    (hnd : binaries.Nodup)
    (hok : (processRun os pick C ld binaries).ok = true) :
    ((processRun os pick C ld binaries).state.log.map Prod.fst).Perm
        binaries ∧
      ((processRun os pick C ld binaries).state.log.map Prod.fst).Nodup ∧
      (∀ b ∈ binaries,
        ((processRun os pick C ld binaries).state.log.map Prod.fst).count b =
          1) ∧
      storeLines (processRun os pick C ld binaries).state.log
          (processRun os pick C ld binaries).state.bins =
        (processRun os pick C ld binaries).state.log.map
          (fun e => fmtLine e.1 e.2) := by
  obtain ⟨_, h2, _, _, _⟩ := processRun_spec os hpick C ld binaries hC
  obtain ⟨_, _, hperm, _, hbins⟩ := h2 hok
  have hnd2 : ((processRun os pick C ld binaries).state.log.map
      Prod.fst).Nodup := hperm.nodup_iff.mpr hnd
  refine ⟨hperm, hnd2, ?_, storeLines_of_complete hperm hbins⟩
  intro b hb
  exact List.count_eq_one_of_mem hnd2 (hperm.mem_iff.mpr hb)

/-- Claim C3 (witness): two distinct jobs run to completion under
concurrency limit 1. -/
theorem claim_C3_witness :
    ((processRun osAllZero pickHead 1 none
        [("a"), ("b")]).state.log.map Prod.fst).Perm [("a"), ("b")] ∧
      ((processRun osAllZero pickHead 1 none
        [("a"), ("b")]).state.log.map Prod.fst).Nodup ∧
      (∀ b ∈ ([("a"), ("b")] : List String),
        ((processRun osAllZero pickHead 1 none
          [("a"), ("b")]).state.log.map Prod.fst).count b = 1) ∧
      storeLines (processRun osAllZero pickHead 1 none [("a"), ("b")]).state.log
          (processRun osAllZero pickHead 1 none [("a"), ("b")]).state.bins =
        (processRun osAllZero pickHead 1 none [("a"), ("b")]).state.log.map
          (fun e => fmtLine e.1 e.2) :=
  claim_C3 osAllZero pickHead 1 none [("a"), ("b")] pickHead_mem
    (by decide) (by decide) rfl

/-- Claim C5 (counterexample): two executable jobs A and B submitted in this
order under concurrency limit 2, with B terminating first, produce the
resume lines B;0 then A;0 — the persisted order is completion order, not
the submission order [A;0, B;0] the claim states. -/
theorem claim_C5_counterexample :
    storeLines (processRun osAllZero pickLast 2 none [("A"), ("B")]).state.log
        (processRun osAllZero pickLast 2 none [("A"), ("B")]).state.bins =
      [("B;0"), ("A;0")] ∧
      ([("B;0"), ("A;0")] : List String) ≠ [("A;0"), ("B;0")] :=
  ⟨rfl, by decide⟩

/-- Claim C5 (amended): after a normal run over pairwise-distinct
descriptors the writer emits exactly one line path;outcome per descriptor
of the original job set — the file has as many lines as descriptors and the
line paths are a permutation of them — and the lines appear in the order in
which the jobs were reaped (the order of the execution log), not in
submission order. -/
theorem claim_C5_amended (os : OSModel) (pick : List Nat → Nat) (C : Nat)
    (ld : Option String) (binaries : List String)
    (hpick : ∀ l : List Nat, l ≠ [] → pick l ∈ l) (hC : 1 ≤ C)
    (hnd : binaries.Nodup)
    (hok : (processRun os pick C ld binaries).ok = true) :
    storeLines (processRun os pick C ld binaries).state.log
        (processRun os pick C ld binaries).state.bins =
      (processRun os pick C ld binaries).state.log.map
        (fun e => fmtLine e.1 e.2) ∧
      ((processRun os pick C ld binaries).state.log.map Prod.fst).Perm
        binaries ∧
      (storeLines (processRun os pick C ld binaries).state.log
        (processRun os pick C ld binaries).state.bins).length =
        binaries.length := by
  obtain ⟨_, h2, _, _, _⟩ := processRun_spec os hpick C ld binaries hC
  obtain ⟨_, _, hperm, _, hbins⟩ := h2 hok
  have hstore := storeLines_of_complete hperm hbins
  refine ⟨hstore, hperm, ?_⟩
  rw [hstore, List.length_map]
  have := hperm.length_eq
  simpa using this

/-- Claim C5 (witness): the amended writer contract at the two-job
counterexample schedule. -/
theorem claim_C5_witness :
    storeLines (processRun osAllZero pickLast 2 none [("A"), ("B")]).state.log
        (processRun osAllZero pickLast 2 none [("A"), ("B")]).state.bins =
      (processRun osAllZero pickLast 2 none [("A"), ("B")]).state.log.map
        (fun e => fmtLine e.1 e.2) ∧
      ((processRun osAllZero pickLast 2 none
        [("A"), ("B")]).state.log.map Prod.fst).Perm [("A"), ("B")] ∧
      (storeLines (processRun osAllZero pickLast 2 none [("A"), ("B")]).state.log
        (processRun osAllZero pickLast 2 none [("A"), ("B")]).state.bins).length =
        ([("A"), ("B")] : List String).length :=
  claim_C5_amended osAllZero pickLast 2 none [("A"), ("B")]
    pickLast_mem (by decide) (by decide) rfl

/-- Claim C10: every dispatch opens exactly one output handle, on the
per-job log file when a log directory is configured and on the null device
otherwise; __clear_job__ closes the handle exactly when a log directory is
configured — with logging disabled the handles of all dispatched jobs stay
open for the rest of the run (their number equals the number of dispatches
and they all point at the null device), and with logging enabled every
handle has been closed once a normal run finishes. -/
theorem claim_C10 (os : OSModel) (pick : List Nat → Nat) (C : Nat)
    (ld : Option String) (binaries : List String)
    (hpick : ∀ l : List Nat, l ≠ [] → pick l ∈ l) (hC : 1 ≤ C) :
    (∀ (st : BookState) (job : String),
        (startSubprocess st job).openHandles =
          st.openHandles ++ [(st.nextHandle, logTarget st.log_dir job)]) ∧
      (∀ (st : BookState) (pid : Nat),
        st.log_dir = none → (clearJob st pid).openHandles = st.openHandles) ∧
      (processRun os pick C ld binaries).state.nextHandle =
        countDispatch (processRun os pick C ld binaries).trace ∧
      (ld = none →
        (processRun os pick C ld binaries).state.openHandles.length =
            countDispatch (processRun os pick C ld binaries).trace ∧
          ∀ x ∈ (processRun os pick C ld binaries).state.openHandles,
            x.2 = ("/dev/null")) ∧
      ((processRun os pick C ld binaries).ok = true → ld.isSome = true →
        (processRun os pick C ld binaries).state.openHandles = []) := by
  obtain ⟨_, _, h3, h4, h5⟩ := processRun_spec os hpick C ld binaries hC
  refine ⟨fun st job => rfl, ?_, h3, h4, h5⟩
  intro st pid hnone
  simp [clearJob, hnone]

/-- Claim C10 (witness): a two-job run with logging disabled keeps two
null-device handles open, and the same run with a log directory closes
every handle. -/
theorem claim_C10_witness :
    (processRun osAllZero pickHead 1 none
          [("a"), ("b")]).state.openHandles.length =
        countDispatch (processRun osAllZero pickHead 1 none
          [("a"), ("b")]).trace ∧
      (processRun osAllZero pickHead 1 (some ("L"))
        [("a"), ("b")]).state.openHandles = [] := by
  constructor
  · exact ((claim_C10 osAllZero pickHead 1 none [("a"), ("b")] pickHead_mem
      (by decide)).2.2.2.1 rfl).1
  · exact (claim_C10 osAllZero pickHead 1 (some ("L")) [("a"), ("b")]
      pickHead_mem (by decide)).2.2.2.2 rfl rfl

end ProcessLocal
